import Mathlib

/-!
Verification of the filter/rank/scroll/render state machine of `ui.py`
(the `_PanelPromptSession` class and the `load_nerdicons` loader).

Modelling conventions:
* Python strings are modelled as `List Char` (`Str`); comparisons between
  characters use the code point (`Char.val`), matching Python's ordinal
  string comparison.
* `str.lower()` is modelled character-wise by `Char.toLower` (ASCII case
  mapping, which covers the ASCII names/queries the widget handles).
* `str.strip()` / `int()`'s whitespace stripping is modelled over the ASCII
  whitespace characters.
* Python's `sorted` is a stable sort by a total preorder; it is modelled by
  `List.insertionSort` with the non-strict key order, which is stable in
  the same sense (an element is inserted before the first existing element
  it is `≤`, and elements are inserted from the left).
* Machine integers that the code keeps non-negative (`selected_index`,
  `view_start`, `max_rows`, lengths) are modelled as `Nat`; Python's
  `max(x - y, 0)` becomes truncated subtraction.
* The `filterRuns` field of `State` is ghost instrumentation: it counts the
  `filter_items()` invocations performed by an event handler and carries no
  data the code stores.
-/

/-- Python strings as lists of characters. -/
abbrev Str := List Char

/-- Shorthand for building a `Str` from a Lean string literal. -/
def str (s : String) : Str := s.data

/-- ASCII whitespace, as stripped by Python's `str.strip()`. -/
def pyIsSpace (c : Char) : Bool :=
  c = ' ' || c = '\t' || c = '\n' || c = '\x0d' || c = '\x0b' || c = '\x0c'

/-- Python `str.strip()`: drop whitespace from both ends. -/
def pyStrip (s : Str) : Str :=
  ((s.dropWhile pyIsSpace).reverse.dropWhile pyIsSpace).reverse

/-- Python `str.lower()` (ASCII case mapping). -/
def pyLower (s : Str) : Str := s.map Char.toLower

/-- Python `needle in hay` for strings: `needle` occurs contiguously in
`hay` (the empty needle always occurs). -/
def containsSub (needle : Str) : Str → Bool
  | [] => needle.isEmpty
  | c :: rest => needle.isPrefixOf (c :: rest) || containsSub needle rest

/-- Python `hay.find(needle)`: index of the first occurrence, `none` when
absent (`ui.py` maps `-1` to `len(text)` afterwards). -/
def findSub (needle : Str) : Str → Option Nat
  | [] => if needle.isPrefixOf ([] : Str) then some 0 else none
  | c :: rest =>
    if needle.isPrefixOf (c :: rest) then some 0
    else (findSub needle rest).map (fun k => k + 1)

/-- Python's string `<=`: lexicographic on code points. -/
def lexLe : Str → Str → Bool
  | [], _ => true
  | _ :: _, [] => false
  | a :: as, b :: bs =>
    if a.toNat < b.toNat then true
    else if b.toNat < a.toNat then false
    else lexLe as bs

/-- Python tuple `<=` on a `(starts_with, position, text)` sort key. -/
def keyLe (x y : Nat × Nat × Str) : Bool :=
  if x.1 < y.1 then true
  else if y.1 < x.1 then false
  else if x.2.1 < y.2.1 then true
  else if y.2.1 < x.2.1 then false
  else lexLe x.2.2 y.2.2

/-- The `sort_key` closure of `_sort_items` (`ui.py` lines 109–114):
`(0 if text.startswith(lowered) else 1, text.find(lowered) mapped to
len(text) when -1, text)` where `text = item.lower()`. -/
def sortKey (lowered : Str) (item : Str) : Nat × Nat × Str :=
  let text := pyLower item
  let startsWith : Nat := if lowered.isPrefixOf text then 0 else 1
  let position : Nat :=
    match findSub lowered text with
    | some p => p
    | none => text.length
  (startsWith, position, text)

/-- `_sort_items` (`ui.py` lines 100–116): empty item list unchanged; empty
query sorts lexicographically; otherwise stable-sorts by `sortKey`. -/
def sortItems (items : List Str) (query : Str) : List Str :=
  if items = [] then []
  else if query = [] then
    List.insertionSort (fun a b => lexLe a b = true) items
  else
    let lowered := pyLower query
    List.insertionSort
      (fun a b => keyLe (sortKey lowered a) (sortKey lowered b) = true) items

/-- The pure filter-and-rank core of `filter_items` (`ui.py` lines 79–87):
strip the query; empty stripped query keeps every candidate, otherwise keep
the case-insensitive substring matches; then sort with `_sort_items`. -/
def filterSort (source : List Str) (inputText : Str) : List Str :=
  let query := pyStrip inputText
  let filtered :=
    if query = [] then source
    else
      let lowered := pyLower query
      source.filter (fun item => containsSub lowered (pyLower item))
  sortItems filtered query


/-- The mutable session state of `_PanelPromptSession` (`ui.py` lines
58–71).  `panel_width` and `panel_inner_width` are the constants 80 and 76
(see `panelWidth`/`panelInnerWidth`); `filterRuns` is ghost instrumentation
counting `filter_items()` invocations. -/
structure State where
  choices : List Str
  inputText : Str
  filteredItems : List Str
  selectedIndex : Nat
  viewStart : Nat
  maxRows : Nat
  filterRuns : Nat
deriving DecidableEq, Repr

/-- `self.panel_width = 80` (`ui.py` line 63). -/
def panelWidth : Nat := 80

/-- `self.panel_inner_width = self.panel_width - 4` (`ui.py` line 64). -/
def panelInnerWidth : Nat := panelWidth - 4

/-- `_ensure_selection_visible` (`ui.py` lines 195–215): empty list or
non-positive `max_rows` pins the viewport to 0; `reset_view` recenters on
the selection; otherwise the viewport moves only as needed to keep the
selection visible, and is finally clamped to
`[0, max(len(filtered) - max_rows, 0)]`. -/
def ensureSelectionVisible (s : State) (resetView : Bool) : State :=
  if s.filteredItems = [] then { s with viewStart := 0 }
  else if s.maxRows = 0 then { s with viewStart := 0 }
  else
    let maxViewStart := s.filteredItems.length - s.maxRows
    if resetView then
      { s with viewStart := max 0 (min s.selectedIndex maxViewStart) }
    else
      let vs :=
        if s.selectedIndex < s.viewStart then s.selectedIndex
        else if s.viewStart + s.maxRows ≤ s.selectedIndex then
          s.selectedIndex - s.maxRows + 1
        else s.viewStart
      { s with viewStart := max 0 (min vs maxViewStart) }

/-- `filter_items` (`ui.py` lines 73–98): remember the selected value,
recompute `filtered_items` with `filterSort`, restore the selection by
value when the (truthy, i.e. non-empty) value survived, else reset it to 0,
and re-adjust the viewport (`reset_view` exactly when the old value is not
in the new list; a `None`/absent old value counts as not in it). -/
def filterItems (s : State) : State :=
  let previousValue : Option Str :=
    if s.filteredItems ≠ [] ∧ s.selectedIndex < s.filteredItems.length then
      some (s.filteredItems.getD s.selectedIndex [])
    else none
  let sortedItems := filterSort s.choices s.inputText
  if sortedItems = [] then
    { s with filteredItems := [], selectedIndex := 0, viewStart := 0,
             filterRuns := s.filterRuns + 1 }
  else
    let sel : Nat :=
      match previousValue with
      | some v => if v ≠ [] ∧ v ∈ sortedItems then sortedItems.indexOf v else 0
      | none => 0
    let resetView : Bool :=
      match previousValue with
      | some v => ¬ v ∈ sortedItems
      | none => true
    ensureSelectionVisible
      { s with filteredItems := sortedItems, selectedIndex := sel,
               filterRuns := s.filterRuns + 1 }
      resetView

/-- `_accept_selection` (`ui.py` lines 191–193): copy the selected
candidate into the input line (no-op when the list is empty). -/
def acceptSelection (s : State) : State :=
  if s.filteredItems ≠ [] then
    { s with inputText := s.filteredItems.getD s.selectedIndex [] }
  else s

/-- The "up" key handler (`ui.py` lines 244–248). -/
def upStep (s : State) : State :=
  if s.filteredItems ≠ [] ∧ 0 < s.selectedIndex then
    ensureSelectionVisible { s with selectedIndex := s.selectedIndex - 1 } false
  else s

/-- The "down" key handler (`ui.py` lines 250–254). -/
def downStep (s : State) : State :=
  if s.filteredItems ≠ [] ∧ s.selectedIndex < s.filteredItems.length - 1 then
    ensureSelectionVisible { s with selectedIndex := s.selectedIndex + 1 } false
  else s

/-- The "tab" key handler (`ui.py` lines 256–261): accept the selection,
re-filter with the new input, re-adjust the viewport. -/
def tabStep (s : State) : State :=
  if s.filteredItems ≠ [] then
    ensureSelectionVisible (filterItems (acceptSelection s)) false
  else s

/-- The "enter" key handler's result (`ui.py` lines 263–268): the raw input
text, or the selected candidate when the input is empty and the list is
not. -/
def enterResult (s : State) : Str :=
  if s.inputText = [] ∧ s.filteredItems ≠ [] then
    s.filteredItems.getD s.selectedIndex []
  else s.inputText

/-- A character-insertion key handler (`ui.py` lines 290–294): append the
character and re-filter. -/
def insertCharStep (c : Char) (s : State) : State :=
  filterItems { s with inputText := s.inputText ++ [c] }

/-- The "backspace" key handler (`ui.py` lines 275–279): drop the last
character (if any) and re-filter. -/
def backspaceStep (s : State) : State :=
  if s.inputText ≠ [] then
    filterItems { s with inputText := s.inputText.dropLast }
  else s

/-- `__init__` (`ui.py` lines 51–71): fresh state, then one `filter_items`
pass. -/
def initState (choices : List Str) (maxRows : Nat) : State :=
  filterItems
    { choices := choices, inputText := [], filteredItems := [],
      selectedIndex := 0, viewStart := 0, maxRows := maxRows, filterRuns := 0 }

/-- A navigation command: the "up" or "down" key. -/
inductive NavCmd where
  | up
  | down
deriving DecidableEq, Repr

/-- One navigation event. -/
def navStep (e : NavCmd) (s : State) : State :=
  match e with
  | NavCmd.up => upStep s
  | NavCmd.down => downStep s

/-- A sequence of navigation events, applied left to right. -/
def navRun (evs : List NavCmd) (s : State) : State :=
  evs.foldl (fun st e => navStep e st) s

/-- `_truncate` (`ui.py` lines 118–126): non-positive width gives "",
short text is unchanged, width 1 gives "…", otherwise the first `width-1`
characters plus "…". -/
def pyTruncate (text : Str) (width : Nat) : Str :=
  if width = 0 then []
  else if text.length ≤ width then text
  else if width = 1 then str "…"
  else text.take (width - 1) ++ str "…"

/-- Python `text.ljust(width)`: pad with spaces on the right up to
`width`. -/
def pyLjust (text : Str) (width : Nat) : Str :=
  text ++ List.replicate (width - text.length) ' '

/-- Python `item.split(" ", 1)` when it yields two parts: the text before
the first space and the text after it; `none` when the string has no space
(the two-target unpacking then raises `ValueError`). -/
def splitFirstSpace : Str → Option (Str × Str)
  | [] => none
  | c :: rest =>
    if c = ' ' then some ([], rest)
    else (splitFirstSpace rest).map (fun p => (c :: p.1, p.2))

/-- Python `rest.rsplit(" ", 1)` when it yields two parts: the text before
the last space and the text after it; `none` when there is no space. -/
def rsplitLastSpace (s : Str) : Option (Str × Str) :=
  (splitFirstSpace s.reverse).map (fun p => (p.2.reverse, p.1.reverse))

/-- `_format_item_columns` (`ui.py` lines 217–239): split the item into
`glyph / name / code` around the first and last space and re-lay it out
with " · " separators, padding or truncating the name; fall back to plain
truncation when the split fails or the width is too small. -/
def formatItemColumns (item : Str) (contentWidth : Nat) : Str :=
  if contentWidth = 0 then []
  else
    match splitFirstSpace item with
    | none => pyTruncate item contentWidth
    | some (glyph, rest) =>
      match rsplitLastSpace rest with
      | none => pyTruncate item contentWidth
      | some (name, code) =>
        let separator := str " · "
        let separatorsLen := separator.length * 2
        let baseLen := glyph.length + code.length + separatorsLen
        if contentWidth ≤ baseLen + 1 then pyTruncate item contentWidth
        else
          let nameSpace := contentWidth - baseLen
          let nameText := pyTruncate name nameSpace
          let nameText :=
            if nameText.length < nameSpace then pyLjust nameText nameSpace
            else nameText
          glyph ++ separator ++ nameText ++ separator ++ code

/-- One row of the rendered panel: the header rule (with its title), a
content row (style class and the text handed to `_panel_row`, already
left-justified to the interior width), or the footer rule. -/
inductive PRow where
  | header (title : Str)
  | row (style : String) (text : Str)
  | footer
deriving DecidableEq, Repr

/-- `_panel_row` (`ui.py` lines 138–144), as a structured row: the text is
left-justified to the interior width (the border glyphs around it are pure
presentation). -/
def panelRow (text : Str) (style : String) : PRow :=
  PRow.row style (pyLjust text panelInnerWidth)

/-- `render_panel` (`ui.py` lines 146–176) as a structured list of rows:
header, then the content rows (the no-results message plus `max_rows - 1`
placeholders, or `max_rows` slots each showing the candidate at
`view_start + i` when it exists), then the footer. -/
def renderPanel (s : State) : List PRow :=
  if s.filteredItems = [] then
    [PRow.header (str "No results")]
      ++ [panelRow (pyTruncate (str "Tidak ada hasil") panelInnerWidth)
            "class:no-results"]
      ++ List.replicate (s.maxRows - 1) (panelRow [] "class:panel-placeholder")
      ++ [PRow.footer]
  else
    [PRow.header (str "NerdIcons")]
      ++ ((List.range s.maxRows).map fun idx =>
            let actualIndex := s.viewStart + idx
            if h : actualIndex < s.filteredItems.length then
              let item := s.filteredItems.get ⟨actualIndex, h⟩
              let isSelected := actualIndex = s.selectedIndex
              let pfx := if isSelected then str "› " else str "  "
              let formatted :=
                formatItemColumns item (panelInnerWidth - pfx.length)
              panelRow (pfx ++ formatted)
                (if isSelected then "class:selected-line"
                 else "class:panel-line")
            else panelRow [] "class:panel-placeholder")
      ++ [PRow.footer]

/-- Whether a `PRow` is a content row (produced by `_panel_row`). -/
def PRow.isContent : PRow → Bool
  | PRow.row _ _ => true
  | _ => false

/-- The number of content rows between the header and the footer. -/
def contentRowCount (rows : List PRow) : Nat :=
  rows.countP PRow.isContent

/-- ASCII hexadecimal digit. -/
def isHexDigitChar (c : Char) : Bool :=
  ('0' ≤ c && c ≤ '9') || ('a' ≤ c && c ≤ 'f') || ('A' ≤ c && c ≤ 'F')

/-- Value of an ASCII hexadecimal digit. -/
def hexVal (c : Char) : Nat :=
  if '0' ≤ c && c ≤ '9' then c.toNat - '0'.toNat
  else if 'a' ≤ c && c ≤ 'f' then c.toNat - 'a'.toNat + 10
  else if 'A' ≤ c && c ≤ 'F' then c.toNat - 'A'.toNat + 10
  else 0

/-- Remaining digits of a base-16 literal: hexadecimal digits with single
underscores allowed between digits (Python's numeric-literal rule). -/
def parseDigitsAux (acc : Nat) : Str → Option Nat
  | [] => some acc
  | '_' :: c :: rest =>
    if isHexDigitChar c then parseDigitsAux (acc * 16 + hexVal c) rest
    else none
  | c :: rest =>
    if isHexDigitChar c then parseDigitsAux (acc * 16 + hexVal c) rest
    else none

/-- A base-16 digit sequence that must begin with a digit. -/
def startDigits : Str → Option Nat
  | [] => none
  | c :: rest =>
    if isHexDigitChar c then parseDigitsAux (hexVal c) rest else none

/-- Digits after a `0x` prefix: one underscore may separate the prefix
from the first digit. -/
def parseUnderscoreDigits : Str → Option Nat
  | '_' :: rest => startDigits rest
  | s => startDigits s

/-- An unsigned base-16 literal: optional `0x`/`0X` prefix, then digits. -/
def parseAfterSign : Str → Option Nat
  | '0' :: x :: rest =>
    if x = 'x' || x = 'X' then
      match rest with
      | [] => none
      | _ => parseUnderscoreDigits rest
    else startDigits ('0' :: x :: rest)
  | s => startDigits s

/-- Python `int(s, 16)`: strip whitespace, optional sign, optional `0x`
prefix, hexadecimal digits with single underscores; `none` models the
`ValueError` (digit recognition modelled for ASCII digits). -/
def pyIntHex (s : Str) : Option Int :=
  match pyStrip s with
  | '+' :: rest => (parseAfterSign rest).map (fun n => (n : Int))
  | '-' :: rest => (parseAfterSign rest).map (fun n => -(n : Int))
  | t => (parseAfterSign t).map (fun n => (n : Int))

/-- Python `chr(i)`: the code point when `0 ≤ i ≤ 0x10FFFF`, else the
`ValueError` (`none`).  The result is kept as a code point (`Nat`) because
Python also produces lone surrogates, which are not Lean `Char`s. -/
def pyChr (i : Int) : Option Nat :=
  if 0 ≤ i ∧ i ≤ 0x10FFFF then some i.toNat else none

/-- Python `str.upper()` (ASCII case mapping). -/
def pyUpper (s : Str) : Str :=
  s.map (fun c => if 'a' ≤ c && c ≤ 'z' then Char.ofNat (c.toNat - 32) else c)

/-- A candidate string as a list of code points (the glyph may be a code
point with no `Char` representation). -/
def codePoints (s : Str) : List Nat := s.map Char.toNat

/-- The f-string `f"{glyph} {name} (U+{hex_value.upper()})"` (`ui.py` line
35), as code points. -/
def mkItem (glyphCp : Nat) (name hexValue : Str) : List Nat :=
  glyphCp :: codePoints (str " ") ++ codePoints name
    ++ codePoints (str " (U+") ++ codePoints (pyUpper hexValue)
    ++ codePoints (str ")")

/-- The conversion one dataset entry undergoes: `int(hex_value, 16)` then
`chr`, giving the formatted item, or `none` when either step raises (the
loop's `continue`). -/
def itemOfEntry (e : Str × Str) : Option (List Nat) :=
  ((pyIntHex e.2).bind pyChr).map (fun cp => mkItem cp e.1 e.2)

/-- The entry loop of `load_nerdicons` (`ui.py` lines 28–36): convert each
entry in order, skipping the ones whose hex value fails to parse. -/
def loadItems : List (Str × Str) → List (List Nat)
  | [] => []
  | e :: rest =>
    match itemOfEntry e with
    | none => loadItems rest
    | some item => item :: loadItems rest

/-- `load_nerdicons` (`ui.py` lines 21–36) over an abstract dataset:
`none` models the missing file (`FileNotFoundError` returns `[]`), `some
entries` the parsed JSON object in insertion order. -/
def loadNerdicons : Option (List (Str × Str)) → List (List Nat)
  | none => []
  | some entries => loadItems entries

theorem charToNat_inj {a b : Char} (h : a.toNat = b.toNat) : a = b :=
  Char.eq_of_val_eq (UInt32.ext h)

theorem lexLe_total : ∀ (a b : Str), lexLe a b = true ∨ lexLe b a = true
  | [], _ => Or.inl rfl
  | _ :: _, [] => Or.inr rfl
  | a :: as, b :: bs => by
    by_cases h1 : a.toNat < b.toNat
    · left; simp [lexLe, h1]
    · by_cases h2 : b.toNat < a.toNat
      · right; simp [lexLe, h2]
      · simpa [lexLe, h1, h2] using lexLe_total as bs

theorem lexLe_trans : ∀ (a b c : Str),
    lexLe a b = true → lexLe b c = true → lexLe a c = true
  | [], _, _, _, _ => rfl
  | _ :: _, [], _, hab, _ => by simp [lexLe] at hab
  | _ :: _, _ :: _, [], _, hbc => by simp [lexLe] at hbc
  | a :: as, b :: bs, c :: cs, hab, hbc => by
    simp only [lexLe] at hab hbc ⊢
    by_cases h1 : a.toNat < b.toNat
    · by_cases h2 : b.toNat < c.toNat
      · simp [show a.toNat < c.toNat by omega]
      · by_cases h3 : c.toNat < b.toNat
        · simp [h2, h3] at hbc
        · simp [show a.toNat < c.toNat by omega]
    · by_cases h4 : b.toNat < a.toNat
      · simp [h1, h4] at hab
      · by_cases h2 : b.toNat < c.toNat
        · simp [show a.toNat < c.toNat by omega]
        · by_cases h3 : c.toNat < b.toNat
          · simp [h2, h3] at hbc
          · simp [h1, h4] at hab
            simp [h2, h3] at hbc
            simp [show ¬ a.toNat < c.toNat by omega,
                  show ¬ c.toNat < a.toNat by omega]
            exact lexLe_trans as bs cs hab hbc

theorem lexLe_antisymm : ∀ {a b : Str},
    lexLe a b = true → lexLe b a = true → a = b
  | [], [], _, _ => rfl
  | [], _ :: _, _, hba => by simp [lexLe] at hba
  | _ :: _, [], hab, _ => by simp [lexLe] at hab
  | a :: as, b :: bs, hab, hba => by
    simp only [lexLe] at hab hba
    by_cases h1 : a.toNat < b.toNat <;> by_cases h2 : b.toNat < a.toNat <;>
      simp_all
    · omega
    · have hEq : a = b := charToNat_inj (by omega)
      subst hEq
      exact ⟨rfl, lexLe_antisymm hab hba⟩

theorem lexLe_nil_right : ∀ {a : Str}, lexLe a [] = true → a = []
  | [], _ => rfl
  | _ :: _, h => by simp [lexLe] at h

theorem lexLe_of_isPrefixOf : ∀ {a b : Str},
    a.isPrefixOf b = true → lexLe a b = true
  | [], _, _ => rfl
  | _ :: _, [], h => by simp [List.isPrefixOf] at h
  | a :: as, b :: bs, h => by
    simp only [List.isPrefixOf, Bool.and_eq_true, beq_iff_eq] at h
    obtain ⟨rfl, h2⟩ := h
    simpa [lexLe] using lexLe_of_isPrefixOf h2

theorem lexLe_refl (a : Str) : lexLe a a = true :=
  lexLe_of_isPrefixOf (by
    induction a with
    | nil => rfl
    | cons c cs ih => simp [List.isPrefixOf, ih])

theorem keyLe_iff {x y : Nat × Nat × Str} :
    keyLe x y = true ↔
      (x.1 < y.1 ∨ (x.1 = y.1 ∧ (x.2.1 < y.2.1 ∨
        (x.2.1 = y.2.1 ∧ lexLe x.2.2 y.2.2 = true)))) := by
  unfold keyLe
  by_cases h1 : x.1 < y.1
  · simp [h1]
  · by_cases h2 : y.1 < x.1
    · simp [h1, h2, show x.1 ≠ y.1 by omega]
    · have e1 : x.1 = y.1 := by omega
      by_cases h3 : x.2.1 < y.2.1
      · simp [h1, h2, h3, e1]
      · by_cases h4 : y.2.1 < x.2.1
        · simp [h1, h2, h3, h4, e1, show x.2.1 ≠ y.2.1 by omega]
        · have e2 : x.2.1 = y.2.1 := by omega
          simp [h1, h2, h3, h4, e1, e2]

theorem keyLe_total (x y : Nat × Nat × Str) :
    keyLe x y = true ∨ keyLe y x = true := by
  rw [keyLe_iff, keyLe_iff]
  rcases Nat.lt_trichotomy x.1 y.1 with h | h | h
  · exact Or.inl (Or.inl h)
  · rcases Nat.lt_trichotomy x.2.1 y.2.1 with h2 | h2 | h2
    · exact Or.inl (Or.inr ⟨h, Or.inl h2⟩)
    · rcases lexLe_total x.2.2 y.2.2 with h3 | h3
      · exact Or.inl (Or.inr ⟨h, Or.inr ⟨h2, h3⟩⟩)
      · exact Or.inr (Or.inr ⟨h.symm, Or.inr ⟨h2.symm, h3⟩⟩)
    · exact Or.inr (Or.inr ⟨h.symm, Or.inl h2⟩)
  · exact Or.inr (Or.inl h)

theorem keyLe_trans (x y z : Nat × Nat × Str)
    (hxy : keyLe x y = true) (hyz : keyLe y z = true) : keyLe x z = true := by
  rw [keyLe_iff] at hxy hyz ⊢
  rcases hxy with h | ⟨e1, hxy⟩
  · rcases hyz with h' | ⟨e1', _⟩ <;> exact Or.inl (by omega)
  · rcases hyz with h' | ⟨e1', hyz⟩
    · exact Or.inl (by omega)
    · refine Or.inr ⟨by omega, ?_⟩
      rcases hxy with h2 | ⟨e2, hx3⟩
      · rcases hyz with h2' | ⟨e2', _⟩ <;> exact Or.inl (by omega)
      · rcases hyz with h2' | ⟨e2', hy3⟩
        · exact Or.inl (by omega)
        · exact Or.inr ⟨by omega, lexLe_trans _ _ _ hx3 hy3⟩

instance : IsTotal Str (fun a b => lexLe a b = true) := ⟨lexLe_total⟩

instance : IsTrans Str (fun a b => lexLe a b = true) := ⟨lexLe_trans⟩

instance (lowered : Str) :
    IsTotal Str (fun a b => keyLe (sortKey lowered a) (sortKey lowered b) = true) :=
  ⟨fun _ _ => keyLe_total _ _⟩

instance (lowered : Str) :
    IsTrans Str (fun a b => keyLe (sortKey lowered a) (sortKey lowered b) = true) :=
  ⟨fun _ _ _ => keyLe_trans _ _ _⟩

theorem sortItems_perm (items : List Str) (q : Str) :
    List.Perm (sortItems items q) items := by
  by_cases h : items = []
  · simp [sortItems, h]
  · by_cases hq : q = []
    · simpa [sortItems, h, hq] using List.perm_insertionSort _ items
    · simpa [sortItems, h, hq] using List.perm_insertionSort _ items

theorem sortItems_sorted_empty (items : List Str) :
    (sortItems items []).Sorted (fun a b => lexLe a b = true) := by
  by_cases h : items = []
  · simp [sortItems, h]
  · simpa [sortItems, h] using List.sorted_insertionSort _ items

theorem sortItems_sorted_key (items : List Str) {q : Str} (hq : q ≠ []) :
    (sortItems items q).Sorted
      (fun a b => keyLe (sortKey (pyLower q) a) (sortKey (pyLower q) b) = true) := by
  by_cases h : items = []
  · simp [sortItems, h]
  · simpa [sortItems, h, hq] using List.sorted_insertionSort _ items

theorem count_eq_of_perm {l₁ l₂ : List Str} (h : List.Perm l₁ l₂) (x : Str) :
    List.count x l₁ = List.count x l₂ := by
  induction h with
  | nil => rfl
  | cons a _ ih => simp [List.count_cons, ih]
  | swap a b l => simp [List.count_cons]; omega
  | trans _ _ ih₁ ih₂ => omega

theorem count_filter_eq (p : Str → Bool) (x : Str) (l : List Str) :
    List.count x (l.filter p) = if p x then List.count x l else 0 := by
  induction l with
  | nil => simp
  | cons a t ih =>
    by_cases hpa : p a
    · by_cases hxa : a = x
      · subst hxa; simp [List.count_cons, hpa, ih]
      · simp [List.count_cons, hpa, ih, hxa]
    · by_cases hxa : a = x
      · subst hxa; simp [List.count_cons, hpa, ih]
      · simp [List.count_cons, hpa, ih, hxa]

theorem filterSort_of_strip_nil {C : List Str} {q : Str} (hq : pyStrip q = []) :
    filterSort C q = sortItems C [] := by
  simp [filterSort, hq]

theorem filterSort_of_strip_ne {C : List Str} {q : Str} (hq : pyStrip q ≠ []) :
    filterSort C q
      = sortItems
          (C.filter (fun item =>
            containsSub (pyLower (pyStrip q)) (pyLower item)))
          (pyStrip q) := by
  simp [filterSort, hq]

/-- C1 (amended): for every candidate list `C` and query `q` whose
whitespace-trimmed form is non-empty, every item returned by the filter
contains the trimmed query case-insensitively, and every string occurs in
the returned list with its multiplicity in `C` when its lowercase form
contains the lowercase trimmed query, and not at all otherwise (hence each
matching item exactly once when `C` has no duplicates). -/
theorem c1_filter_membership_and_multiplicity (C : List Str) (q : Str)
    (hq : pyStrip q ≠ []) :
    (∀ x ∈ filterSort C q,
        containsSub (pyLower (pyStrip q)) (pyLower x) = true)
    ∧ (∀ x : Str,
        List.count x (filterSort C q)
          = if containsSub (pyLower (pyStrip q)) (pyLower x)
              then List.count x C else 0) := by
  rw [filterSort_of_strip_ne hq]
  have hperm := sortItems_perm
    (C.filter (fun item => containsSub (pyLower (pyStrip q)) (pyLower item)))
    (pyStrip q)
  constructor
  · intro x hx
    exact (List.mem_filter.mp (hperm.mem_iff.mp hx)).2
  · intro x
    rw [count_eq_of_perm hperm x]
    exact count_filter_eq _ _ _

/-- C1 witness: a concrete instance of the amended claim. -/
theorem c1_witness :
    containsSub (pyLower (pyStrip (str "a"))) (pyLower (str "ab")) = true
    ∧ List.count (str "ab") (filterSort [str "ab", str "cd"] (str "a"))
      = if containsSub (pyLower (pyStrip (str "a"))) (pyLower (str "ab"))
          then List.count (str "ab") [str "ab", str "cd"] else 0 :=
  ⟨(c1_filter_membership_and_multiplicity [str "ab", str "cd"] (str "a")
      (by decide)).1 (str "ab") (by decide),
   (c1_filter_membership_and_multiplicity [str "ab", str "cd"] (str "a")
      (by decide)).2 (str "ab")⟩

/-- C1 counterexample to the claim as stated: with the non-empty query
`" a "` the returned item `"a"` does not contain the query `" a "`
case-insensitively (the code matches against the *trimmed* query), and
with the duplicate candidate list `["a", "a"]` and query `"a"` the
matching item `"a"` appears twice, not exactly once. -/
theorem c1_counterexample :
    (str "a" ∈ filterSort [str "a", str "a"] (str " a ")
      ∧ containsSub (pyLower (str " a ")) (pyLower (str "a")) = false)
    ∧ (containsSub (pyLower (str "a")) (pyLower (str "a")) = true
      ∧ List.count (str "a") (filterSort [str "a", str "a"] (str "a")) = 2) := by
  decide

/-- C2: the output of the filter recomputation is, for a
whitespace-trimmed-empty query, the full candidate list sorted
lexicographically (case-sensitive ordinal order), and otherwise the
matching candidates sorted ascending by the composite key
`(starts-with flag, first-occurrence index, lowercased candidate)`. -/
theorem c2_rank_order (C : List Str) (q : Str) :
    (pyStrip q = [] →
      List.Perm (filterSort C q) C
        ∧ (filterSort C q).Sorted (fun a b => lexLe a b = true))
    ∧ (pyStrip q ≠ [] →
      List.Perm (filterSort C q)
          (C.filter (fun item =>
            containsSub (pyLower (pyStrip q)) (pyLower item)))
        ∧ (filterSort C q).Sorted (fun a b =>
            keyLe (sortKey (pyLower (pyStrip q)) a)
              (sortKey (pyLower (pyStrip q)) b) = true)) := by
  constructor
  · intro hq
    rw [filterSort_of_strip_nil hq]
    exact ⟨sortItems_perm C [], sortItems_sorted_empty C⟩
  · intro hq
    rw [filterSort_of_strip_ne hq]
    exact ⟨sortItems_perm _ _, sortItems_sorted_key _ hq⟩

/-- C2 witness: concrete instances of both branches. -/
theorem c2_witness :
    (List.Perm (filterSort [str "b", str "a"] (str " ")) [str "b", str "a"]
      ∧ (filterSort [str "b", str "a"] (str " ")).Sorted
          (fun a b => lexLe a b = true))
    ∧ (List.Perm (filterSort [str "b", str "ab"] (str "b"))
          ([str "b", str "ab"].filter (fun item =>
            containsSub (pyLower (pyStrip (str "b"))) (pyLower item)))
      ∧ (filterSort [str "b", str "ab"] (str "b")).Sorted (fun a b =>
          keyLe (sortKey (pyLower (pyStrip (str "b"))) a)
            (sortKey (pyLower (pyStrip (str "b"))) b) = true)) :=
  ⟨(c2_rank_order [str "b", str "a"] (str " ")).1 (by decide),
   (c2_rank_order [str "b", str "ab"] (str "b")).2 (by decide)⟩

/-- C3 (amended): on `C = ["Abc", "xAbcy", "abcz"]` with query `"abc"` the
filter returns `["Abc", "abcz", "xAbcy"]`: both `"Abc"` and `"abcz"` have
sort key `(0, 0, ·)`, and the lowercase tie-break puts `"abc" < "abcz"`. -/
theorem c3_rank_example :
    filterSort [str "Abc", str "xAbcy", str "abcz"] (str "abc")
      = [str "Abc", str "abcz", str "xAbcy"] := by
  decide

/-- C3 counterexample to the order the claim states: the code does not
return `["abcz", "Abc", "xAbcy"]`. -/
theorem c3_counterexample :
    filterSort [str "Abc", str "xAbcy", str "abcz"] (str "abc")
      ≠ [str "abcz", str "Abc", str "xAbcy"] := by
  decide

theorem ensure_eq_setView (s : State) (b : Bool) :
    ∃ v, ensureSelectionVisible s b = { s with viewStart := v } := by
  unfold ensureSelectionVisible
  split_ifs <;> exact ⟨_, rfl⟩

/-- C8: on submit, a non-empty raw query is returned as is; an empty raw
query returns the selected candidate when the filtered list is non-empty,
and the empty string when it is empty. -/
theorem c8_submit_contract (s : State) :
    (s.inputText ≠ [] → enterResult s = s.inputText)
    ∧ (s.inputText = [] →
        ∀ h : s.selectedIndex < s.filteredItems.length,
          enterResult s = s.filteredItems.get ⟨s.selectedIndex, h⟩)
    ∧ (s.inputText = [] → s.filteredItems = [] → enterResult s = []) := by
  refine ⟨?_, ?_, ?_⟩
  · intro h
    simp [enterResult, h]
  · intro h hlt
    have hne : s.filteredItems ≠ [] := by
      intro he
      rw [he] at hlt
      simp at hlt
    simp [enterResult, h, hne, List.getD_eq_getElem?_getD, List.getElem?_eq_getElem hlt]
  · intro h he
    simp [enterResult, h, he]

/-- C8 witness: the three branches at concrete states. -/
theorem c8_witness :
    enterResult { choices := [], inputText := str "q",
                  filteredItems := [str "y"], selectedIndex := 0,
                  viewStart := 0, maxRows := 6, filterRuns := 0 } = str "q"
    ∧ enterResult { choices := [], inputText := [],
                    filteredItems := [str "y"], selectedIndex := 0,
                    viewStart := 0, maxRows := 6, filterRuns := 0 } = str "y"
    ∧ enterResult { choices := [], inputText := [], filteredItems := [],
                    selectedIndex := 0, viewStart := 0, maxRows := 6,
                    filterRuns := 0 } = [] :=
  ⟨(c8_submit_contract _).1 (by decide),
   ((c8_submit_contract _).2.1 rfl (by decide)).trans (by decide),
   (c8_submit_contract _).2.2 rfl rfl⟩

/-- C10: navigation up/down changes at most the selection index and the
viewport: the query, the candidate list, the filtered list, `max_rows` and
the number of `filter_items` runs are all unchanged. -/
theorem c10_navigation_frame (s : State) :
    ((upStep s).inputText = s.inputText
      ∧ (upStep s).choices = s.choices
      ∧ (upStep s).filteredItems = s.filteredItems
      ∧ (upStep s).maxRows = s.maxRows
      ∧ (upStep s).filterRuns = s.filterRuns)
    ∧ ((downStep s).inputText = s.inputText
      ∧ (downStep s).choices = s.choices
      ∧ (downStep s).filteredItems = s.filteredItems
      ∧ (downStep s).maxRows = s.maxRows
      ∧ (downStep s).filterRuns = s.filterRuns) := by
  constructor
  · unfold upStep
    split_ifs with h
    · obtain ⟨v, hv⟩ :=
        ensure_eq_setView { s with selectedIndex := s.selectedIndex - 1 } false
      rw [hv]
      simp
    · simp
  · unfold downStep
    split_ifs with h
    · obtain ⟨v, hv⟩ :=
        ensure_eq_setView { s with selectedIndex := s.selectedIndex + 1 } false
      rw [hv]
      simp
    · simp

/-- The session's selection/viewport invariant (spec §3): the selection is
in range and visible, and the viewport offset never exceeds
`max(len(filtered) - max_rows, 0)`. -/
def NavInv (s : State) : Prop :=
  s.viewStart ≤ s.selectedIndex
  ∧ s.selectedIndex < s.viewStart + s.maxRows
  ∧ s.viewStart ≤ s.filteredItems.length - s.maxRows
  ∧ s.selectedIndex < s.filteredItems.length

instance (s : State) : Decidable (NavInv s) := by
  unfold NavInv
  infer_instance

theorem navInv_up (s : State) (h : NavInv s) : NavInv (upStep s) := by
  obtain ⟨h1, h2, h3, h4⟩ := h
  unfold NavInv upStep ensureSelectionVisible
  split_ifs <;> simp_all <;> omega

theorem navInv_down (s : State) (h : NavInv s) : NavInv (downStep s) := by
  obtain ⟨h1, h2, h3, h4⟩ := h
  unfold NavInv downStep ensureSelectionVisible
  split_ifs <;> simp_all <;> omega

theorem navInv_step (e : NavCmd) (s : State) (h : NavInv s) :
    NavInv (navStep e s) := by
  cases e
  · exact navInv_up s h
  · exact navInv_down s h

theorem navInv_run (evs : List NavCmd) (s : State) (h : NavInv s) :
    NavInv (navRun evs s) := by
  induction evs generalizing s with
  | nil => exact h
  | cons e rest ih => exact ih (navStep e s) (navInv_step e s h)

/-- C5: starting from any session state satisfying the selection/viewport
invariant with a non-empty filtered list, every sequence of navigate-up and
navigate-down events preserves `view_start ≤ selected_index <
view_start + max_rows` and `view_start ≤ max(len(filtered) - max_rows, 0)`
(the state after every event is `navRun evs s` for some prefix `evs`). -/
theorem c5_viewport_invariant (s : State) (evs : List NavCmd)
    (h : NavInv s) :
    (navRun evs s).viewStart ≤ (navRun evs s).selectedIndex
    ∧ (navRun evs s).selectedIndex
        < (navRun evs s).viewStart + (navRun evs s).maxRows
    ∧ (navRun evs s).viewStart
        ≤ (navRun evs s).filteredItems.length - (navRun evs s).maxRows := by
  obtain ⟨h1, h2, h3, _⟩ := navInv_run evs s h
  exact ⟨h1, h2, h3⟩

/-- C5 witness: a concrete three-candidate session navigated down, down,
up. -/
theorem c5_witness :
    NavInv (initState [str "a", str "b", str "c"] 2)
    ∧ ((navRun [NavCmd.down, NavCmd.down, NavCmd.up]
          (initState [str "a", str "b", str "c"] 2)).viewStart
        ≤ (navRun [NavCmd.down, NavCmd.down, NavCmd.up]
            (initState [str "a", str "b", str "c"] 2)).selectedIndex
      ∧ (navRun [NavCmd.down, NavCmd.down, NavCmd.up]
            (initState [str "a", str "b", str "c"] 2)).selectedIndex
          < (navRun [NavCmd.down, NavCmd.down, NavCmd.up]
              (initState [str "a", str "b", str "c"] 2)).viewStart
            + (navRun [NavCmd.down, NavCmd.down, NavCmd.up]
                (initState [str "a", str "b", str "c"] 2)).maxRows
      ∧ (navRun [NavCmd.down, NavCmd.down, NavCmd.up]
            (initState [str "a", str "b", str "c"] 2)).viewStart
          ≤ (navRun [NavCmd.down, NavCmd.down, NavCmd.up]
              (initState [str "a", str "b", str "c"] 2)).filteredItems.length
            - (navRun [NavCmd.down, NavCmd.down, NavCmd.up]
                (initState [str "a", str "b", str "c"] 2)).maxRows) :=
  ⟨by decide,
   c5_viewport_invariant (initState [str "a", str "b", str "c"] 2)
     [NavCmd.down, NavCmd.down, NavCmd.up] (by decide)⟩

theorem countP_replicate_row (n : Nat) (s : String) (t : Str) :
    List.countP PRow.isContent (List.replicate n (PRow.row s t)) = n := by
  induction n with
  | zero => rfl
  | succ k ih =>
    simp [List.replicate_succ, List.countP_cons, ih, PRow.isContent]

/-- C6 (amended): for every session state with `max_rows ≥ 1`, the panel
renders exactly `max_rows` content rows between the header and footer,
whether the filtered list has 0, fewer than `max_rows`, or more than
`max_rows` items. -/
theorem c6_row_count (s : State) (h : 1 ≤ s.maxRows) :
    contentRowCount (renderPanel s) = s.maxRows := by
  unfold contentRowCount renderPanel
  by_cases he : s.filteredItems = []
  · simp only [he, if_true]
    simp [List.countP_append, List.countP_cons, countP_replicate_row,
      panelRow, PRow.isContent]
    omega
  · simp only [he, if_false]
    have hall : ∀ r ∈ (List.range s.maxRows).map (fun idx =>
        let actualIndex := s.viewStart + idx
        if h : actualIndex < s.filteredItems.length then
          let item := s.filteredItems.get ⟨actualIndex, h⟩
          let isSelected := actualIndex = s.selectedIndex
          let pfx := if isSelected then str "› " else str "  "
          let formatted :=
            formatItemColumns item (panelInnerWidth - pfx.length)
          panelRow (pfx ++ formatted)
            (if isSelected then "class:selected-line"
             else "class:panel-line")
        else panelRow [] "class:panel-placeholder"),
        PRow.isContent r = true := by
      intro r hr
      obtain ⟨i, _, rfl⟩ := List.mem_map.mp hr
      dsimp only
      split <;> rfl
    rw [List.countP_append, List.countP_append,
        List.countP_eq_length.mpr hall, List.length_map, List.length_range]
    simp [List.countP_cons, PRow.isContent]

/-- C6 witness: with `max_rows = 3` both the empty and the non-empty
filtered list render exactly 3 content rows. -/
theorem c6_witness :
    contentRowCount (renderPanel
        { choices := [], inputText := [], filteredItems := [],
          selectedIndex := 0, viewStart := 0, maxRows := 3,
          filterRuns := 0 }) = 3
    ∧ contentRowCount (renderPanel
        { choices := [], inputText := [], filteredItems := [str "a"],
          selectedIndex := 0, viewStart := 0, maxRows := 3,
          filterRuns := 0 }) = 3 :=
  ⟨c6_row_count _ (by decide), c6_row_count _ (by decide)⟩

/-- C6 counterexample to the unrestricted claim: with `max_rows = 0` and an
empty filtered list the panel still renders its one message row, so the
content row count is 1, not `max_rows`. -/
theorem c6_counterexample :
    ¬ (contentRowCount (renderPanel
          { choices := [], inputText := [], filteredItems := [],
            selectedIndex := 0, viewStart := 0, maxRows := 0,
            filterRuns := 0 })
        = ({ choices := [], inputText := [], filteredItems := [],
             selectedIndex := 0, viewStart := 0, maxRows := 0,
             filterRuns := 0 } : State).maxRows) := by
  decide

/-- C9: the candidate loader maps a missing dataset file to the empty
candidate list, and a present dataset to exactly one formatted item
`"<glyph> <name> (U+<HEX>)"` (hex uppercased) per entry whose hex value
parses to a glyph, silently skipping every entry whose hex value fails to
parse. -/
theorem c9_loader (raw : Option (List (Str × Str))) :
    (raw = none → loadNerdicons raw = [])
    ∧ (∀ entries, raw = some entries →
        loadNerdicons raw = entries.filterMap itemOfEntry) := by
  constructor
  · intro h
    subst h
    rfl
  · intro entries h
    subst h
    show loadItems entries = entries.filterMap itemOfEntry
    induction entries with
    | nil => rfl
    | cons e rest ih =>
      unfold loadItems
      cases hi : itemOfEntry e <;> simp [List.filterMap_cons, hi, ih]

/-- C9 witness: a two-entry dataset with one malformed hex value loads the
single well-formed entry (`0x2A` is `*`), and the missing file loads
nothing. -/
theorem c9_witness :
    loadNerdicons (some [(str "star", str "2A"), (str "bad", str "zz")])
      = [(str "star", str "2A"), (str "bad", str "zz")].filterMap itemOfEntry
    ∧ loadNerdicons (some [(str "star", str "2A"), (str "bad", str "zz")])
      = [mkItem 42 (str "star") (str "2A")]
    ∧ loadNerdicons none = [] :=
  ⟨(c9_loader _).2 _ rfl, by decide, (c9_loader _).1 rfl⟩

theorem indexOf_nil_filterSort {C : List Str} {q : Str}
    (h : ([] : Str) ∈ filterSort C q) :
    (filterSort C q).indexOf ([] : Str) = 0 := by
  by_cases hq : pyStrip q = []
  · rw [filterSort_of_strip_nil hq] at h ⊢
    have hsor : (sortItems C []).Sorted (fun a b => lexLe a b = true) :=
      sortItems_sorted_empty C
    cases hL : sortItems C [] with
    | nil =>
      rw [hL] at h
      simp at h
    | cons a t =>
      rw [hL] at h hsor
      have ha : a = [] := by
        rcases List.mem_cons.mp h with h0 | h0
        · exact h0.symm
        · exact lexLe_nil_right (List.rel_of_sorted_cons hsor _ h0)
      rw [ha]
      exact List.indexOf_cons_self ([] : Str) t
  · exfalso
    rw [filterSort_of_strip_ne hq] at h
    have hmem := (sortItems_perm _ _).mem_iff.mp h
    have hc := (List.mem_filter.mp hmem).2
    simp [containsSub, pyLower, List.isEmpty_iff, List.map_eq_nil_iff] at hc
    exact hq hc

/-- The minimal-adjust viewport policy as the spec states it (§4.2): move
`view_start` up to the selection, or down to `selected_index - max_rows +
1`, only when the selection is outside the window, then clamp to
`[0, max(len(filtered) - max_rows, 0)]`.  Stated from the spec's words, to
be compared with the code's `ensureSelectionVisible`. -/
def minimalAdjust (view sel len rows : Nat) : Nat :=
  max 0 (min (if sel < view then sel
              else if view + rows ≤ sel then sel - rows + 1
              else view)
         (len - rows))

theorem filterItems_unfold (s : State)
    (hne : s.filteredItems ≠ [])
    (hlt : s.selectedIndex < s.filteredItems.length) :
    filterItems s =
      (if filterSort s.choices s.inputText = [] then
        { s with filteredItems := [], selectedIndex := 0, viewStart := 0,
                 filterRuns := s.filterRuns + 1 }
      else
        ensureSelectionVisible
          { s with filteredItems := filterSort s.choices s.inputText,
                   selectedIndex :=
                     if s.filteredItems.getD s.selectedIndex [] ≠ []
                         ∧ s.filteredItems.getD s.selectedIndex []
                             ∈ filterSort s.choices s.inputText then
                       (filterSort s.choices s.inputText).indexOf
                         (s.filteredItems.getD s.selectedIndex [])
                     else 0,
                   filterRuns := s.filterRuns + 1 }
          (decide (¬ s.filteredItems.getD s.selectedIndex []
              ∈ filterSort s.choices s.inputText))) := by
  unfold filterItems
  rw [if_pos (show s.filteredItems ≠ []
      ∧ s.selectedIndex < s.filteredItems.length from ⟨hne, hlt⟩)]

/-- C4: for a re-filter from a session state with a valid selection, if the
previously selected value survives into the new filtered list the selection
moves to its index there and the viewport is only minimally adjusted
(spec §4.2 policy); otherwise the selection resets to 0 and the viewport is
recentered to `clamp(selected_index, 0, max(len(filtered) - max_rows, 0))`. -/
theorem c4_selection_preservation (s : State)
    (hlt : s.selectedIndex < s.filteredItems.length)
    (hrows : 0 < s.maxRows) :
    ((s.filteredItems.getD s.selectedIndex []) ∈ (filterItems s).filteredItems →
        (filterItems s).selectedIndex
            = (filterItems s).filteredItems.indexOf
                (s.filteredItems.getD s.selectedIndex [])
          ∧ (filterItems s).viewStart
            = minimalAdjust s.viewStart (filterItems s).selectedIndex
                (filterItems s).filteredItems.length s.maxRows)
    ∧ (¬ (s.filteredItems.getD s.selectedIndex [])
          ∈ (filterItems s).filteredItems →
        (filterItems s).selectedIndex = 0
          ∧ (filterItems s).viewStart
            = min (filterItems s).selectedIndex
                ((filterItems s).filteredItems.length - s.maxRows)) := by
  have hne : s.filteredItems ≠ [] := by
    intro h0
    rw [h0] at hlt
    simp at hlt
  rw [filterItems_unfold s hne hlt]
  set L := filterSort s.choices s.inputText with hLdef
  set v := s.filteredItems.getD s.selectedIndex [] with hvdef
  have hr0 : s.maxRows ≠ 0 := by omega
  by_cases hL : L = []
  · rw [if_pos hL]
    constructor
    · intro hv
      simp at hv
    · intro _
      exact ⟨rfl, by simp⟩
  · rw [if_neg hL]
    by_cases hvm : v ∈ L
    · have hdec : decide (¬ v ∈ L) = false := by simp [hvm]
      rw [hdec]
      have hsel : (if v ≠ [] ∧ v ∈ L then L.indexOf v else 0) = L.indexOf v := by
        by_cases hv0 : v = []
        · rw [if_neg (by simp [hv0])]
          have hvm' : ([] : Str) ∈ filterSort s.choices s.inputText := by
            rw [hv0] at hvm
            rw [hLdef] at hvm
            exact hvm
          rw [hv0, hLdef]
          exact (indexOf_nil_filterSort hvm').symm
        · rw [if_pos ⟨hv0, hvm⟩]
      rw [hsel]
      constructor
      · intro _
        constructor
        · simp [ensureSelectionVisible, hL, hr0]
        · simp [ensureSelectionVisible, hL, hr0, minimalAdjust]
      · intro hv2
        have hmem : v ∈ (ensureSelectionVisible
            { s with filteredItems := L, selectedIndex := L.indexOf v,
                     filterRuns := s.filterRuns + 1 } false).filteredItems := by
          simp [ensureSelectionVisible, hL, hr0, hvm]
        exact absurd hmem hv2
    · have hdec : decide (¬ v ∈ L) = true := by simp [hvm]
      rw [hdec]
      have hsel0 : (if v ≠ [] ∧ v ∈ L then L.indexOf v else 0) = 0 := by
        simp [hvm]
      rw [hsel0]
      constructor
      · intro hv1
        have : v ∈ L := by
          simpa [ensureSelectionVisible, hL, hr0] using hv1
        exact absurd this hvm
      · intro _
        constructor
        · simp [ensureSelectionVisible, hL, hr0]
        · simp [ensureSelectionVisible, hL, hr0]

/-- A concrete pre-refilter session state: query just edited to `"b"`,
previous selection on the value `"b"` at index 1. -/
def c4state : State :=
  { choices := [str "ab", str "b"], inputText := str "b",
    filteredItems := [str "ab", str "b"], selectedIndex := 1,
    viewStart := 0, maxRows := 1, filterRuns := 1 }

/-- C4 witness: re-filtering `c4state` keeps the selected value `"b"`
(re-ranked to index 0) and minimally adjusts the viewport. -/
theorem c4_witness :
    (filterItems c4state).selectedIndex
        = (filterItems c4state).filteredItems.indexOf
            (c4state.filteredItems.getD c4state.selectedIndex [])
      ∧ (filterItems c4state).viewStart
        = minimalAdjust c4state.viewStart (filterItems c4state).selectedIndex
            (filterItems c4state).filteredItems.length c4state.maxRows :=
  (c4_selection_preservation c4state (by decide) (by decide)).1 (by decide)

theorem ensure_inputText (s : State) (b : Bool) :
    (ensureSelectionVisible s b).inputText = s.inputText := by
  obtain ⟨w, hw⟩ := ensure_eq_setView s b
  rw [hw]

theorem ensure_filteredItems (s : State) (b : Bool) :
    (ensureSelectionVisible s b).filteredItems = s.filteredItems := by
  obtain ⟨w, hw⟩ := ensure_eq_setView s b
  rw [hw]

theorem filterItems_inputText (s : State) :
    (filterItems s).inputText = s.inputText := by
  unfold filterItems
  split <;> dsimp only <;> split
  · rfl
  · simp only [ensure_inputText]
  · rfl
  · simp only [ensure_inputText]

theorem filterItems_filteredItems (s : State) :
    (filterItems s).filteredItems = filterSort s.choices s.inputText := by
  unfold filterItems
  split <;> dsimp only <;> split
  · rename_i h
    exact h.symm
  · simp only [ensure_filteredItems]
  · rename_i h
    exact h.symm
  · simp only [ensure_filteredItems]

theorem isPrefixOf_self : ∀ (l : Str), l.isPrefixOf l = true
  | [] => rfl
  | c :: rest => by simp [List.isPrefixOf, isPrefixOf_self rest]

theorem containsSub_self (l : Str) : containsSub l l = true := by
  cases l with
  | nil => rfl
  | cons c rest => simp [containsSub, isPrefixOf_self]

theorem findSub_self (l : Str) : findSub l l = some 0 := by
  cases l with
  | nil => rfl
  | cons c rest => simp [findSub, isPrefixOf_self]

theorem sortKey_self (v : Str) : sortKey (pyLower v) v = (0, 0, pyLower v) := by
  unfold sortKey
  simp [isPrefixOf_self, findSub_self]

theorem pyLower_eq_of_keyLe {lv x : Str}
    (hk : keyLe (sortKey lv x) (0, 0, lv) = true) : pyLower x = lv := by
  rw [keyLe_iff] at hk
  rcases hk with h | ⟨h1, hk⟩
  · exact absurd h (Nat.not_lt_zero _)
  · rcases hk with h2 | ⟨h2, h3⟩
    · exact absurd h2 (Nat.not_lt_zero _)
    · have h3' : lexLe (pyLower x) lv = true := h3
      have h1' : (if lv.isPrefixOf (pyLower x) = true then (0 : Nat) else 1) = 0 := h1
      by_cases hpre : lv.isPrefixOf (pyLower x) = true
      · exact lexLe_antisymm h3' (lexLe_of_isPrefixOf hpre)
      · rw [if_neg hpre] at h1'
        exact absurd h1' one_ne_zero

theorem headD_mem {l : List Str} (h : l ≠ []) : l.headD [] ∈ l := by
  cases l with
  | nil => exact absurd rfl h
  | cons a t => simp

theorem sorted_headD_rel {r : Str → Str → Prop} {F : List Str}
    (hs : F.Sorted r) {x : Str} (hx : x ∈ F) (hne : F ≠ []) :
    F.headD [] = x ∨ r (F.headD []) x := by
  cases F with
  | nil => exact absurd rfl hne
  | cons a t =>
    rcases List.mem_cons.mp hx with h0 | h0
    · exact Or.inl (by simp [h0])
    · exact Or.inr (by simpa using List.rel_of_sorted_cons hs _ h0)

theorem tabStep_unfold (s : State) (hne : s.filteredItems ≠ []) :
    tabStep s = ensureSelectionVisible (filterItems (acceptSelection s)) false := by
  unfold tabStep
  rw [if_pos hne]

theorem acceptSelection_unfold (s : State) (hne : s.filteredItems ≠ []) :
    acceptSelection s
      = { s with inputText := s.filteredItems.getD s.selectedIndex [] } := by
  unfold acceptSelection
  rw [if_pos hne]

/-- C7 (amended): from a session state with a valid selection (selection in
range, filtered list drawn from the candidates), accept (tab) sets the
query to the selected candidate's full text `v`; when `v` equals its
whitespace-trimmed form, the re-filter yields a non-empty list whose first
element has the same lowercase form as `v`, and that first element is `v`
itself when no other candidate of the re-filtered list shares `v`'s
lowercase form. -/
theorem c7_accept_round_trip (s : State)
    (hlt : s.selectedIndex < s.filteredItems.length)
    (hsub : ∀ x ∈ s.filteredItems, x ∈ s.choices) :
    (tabStep s).inputText = s.filteredItems.getD s.selectedIndex []
    ∧ (pyStrip (s.filteredItems.getD s.selectedIndex [])
          = s.filteredItems.getD s.selectedIndex [] →
        (tabStep s).filteredItems ≠ []
          ∧ pyLower ((tabStep s).filteredItems.headD [])
              = pyLower (s.filteredItems.getD s.selectedIndex [])
          ∧ ((∀ w ∈ (tabStep s).filteredItems,
                pyLower w = pyLower (s.filteredItems.getD s.selectedIndex [])
                  → w = s.filteredItems.getD s.selectedIndex []) →
              (tabStep s).filteredItems.headD []
                = s.filteredItems.getD s.selectedIndex [])) := by
  have hne : s.filteredItems ≠ [] := by
    intro h0
    rw [h0] at hlt
    simp at hlt
  have hvmem0 : s.filteredItems.getD s.selectedIndex [] ∈ s.filteredItems := by
    rw [List.getD_eq_getElem?_getD, List.getElem?_eq_getElem hlt]
    exact List.getElem_mem hlt
  generalize hvdef : s.filteredItems.getD s.selectedIndex [] = v at hvmem0 ⊢
  have hva : acceptSelection s = { s with inputText := v } := by
    rw [acceptSelection_unfold s hne, hvdef]
  have hF : (tabStep s).filteredItems = filterSort s.choices v := by
    rw [tabStep_unfold s hne, ensure_filteredItems, filterItems_filteredItems,
      hva]
  have hIn : (tabStep s).inputText = v := by
    rw [tabStep_unfold s hne, ensure_inputText, filterItems_inputText, hva]
  have hvC : v ∈ s.choices := hsub v hvmem0
  refine ⟨hIn, fun hstrip => ?_⟩
  rw [hF]
  by_cases hv0 : v = []
  · subst hv0
    rw [filterSort_of_strip_nil (show pyStrip ([] : Str) = [] from rfl)]
    have hperm := sortItems_perm s.choices ([] : Str)
    have hmem : ([] : Str) ∈ sortItems s.choices [] := hperm.mem_iff.mpr hvC
    have hne2 : sortItems s.choices [] ≠ [] := List.ne_nil_of_mem hmem
    have hsor := sortItems_sorted_empty s.choices
    have hhead : (sortItems s.choices []).headD [] = [] := by
      cases hL : sortItems s.choices [] with
      | nil => exact absurd hL hne2
      | cons a t =>
        rw [hL] at hmem hsor
        simp only [List.headD_cons]
        rcases List.mem_cons.mp hmem with h0 | h0
        · exact h0.symm
        · exact lexLe_nil_right (List.rel_of_sorted_cons hsor _ h0)
    exact ⟨hne2, by rw [hhead], fun _ => by rw [hhead]⟩
  · have hq : pyStrip v ≠ [] := by
      rw [hstrip]
      exact hv0
    have hfs : filterSort s.choices v
        = sortItems (s.choices.filter (fun item =>
            containsSub (pyLower v) (pyLower item))) v := by
      rw [filterSort_of_strip_ne hq, hstrip]
    rw [hfs]
    have hvfil : v ∈ s.choices.filter (fun item =>
        containsSub (pyLower v) (pyLower item)) :=
      List.mem_filter.mpr ⟨hvC, containsSub_self _⟩
    have hperm := sortItems_perm (s.choices.filter (fun item =>
        containsSub (pyLower v) (pyLower item))) v
    have hmem : v ∈ sortItems (s.choices.filter (fun item =>
        containsSub (pyLower v) (pyLower item))) v := hperm.mem_iff.mpr hvfil
    have hne2 : sortItems (s.choices.filter (fun item =>
        containsSub (pyLower v) (pyLower item))) v ≠ [] :=
      List.ne_nil_of_mem hmem
    have hsor := sortItems_sorted_key (s.choices.filter (fun item =>
        containsSub (pyLower v) (pyLower item))) hv0
    have hlow : pyLower ((sortItems (s.choices.filter (fun item =>
        containsSub (pyLower v) (pyLower item))) v).headD [])
        = pyLower v := by
      rcases sorted_headD_rel hsor hmem hne2 with heq | hrel
      · rw [heq]
      · rw [sortKey_self v] at hrel
        exact pyLower_eq_of_keyLe hrel
    exact ⟨hne2, hlow, fun huniq => huniq _ (headD_mem hne2) hlow⟩

/-- The session on candidates `["ab", "Ab"]` right after construction:
empty query, filtered list sorted to `["Ab", "ab"]`, selection on
`"Ab"`. -/
def c7state : State :=
  { choices := [str "ab", str "Ab"], inputText := [],
    filteredItems := [str "Ab", str "ab"], selectedIndex := 0,
    viewStart := 0, maxRows := 6, filterRuns := 1 }

/-- `["xy"]` alone: accepting it re-filters to itself. -/
def c7wstate : State :=
  { choices := [str "xy"], inputText := [], filteredItems := [str "xy"],
    selectedIndex := 0, viewStart := 0, maxRows := 6, filterRuns := 1 }

/-- C7 counterexample to the claim as stated: `c7state` is the session
freshly constructed on `["ab", "Ab"]`; accepting the highlighted `"Ab"`
sets the query to `"Ab"`, but the re-filter ranks the equal-keyed `"ab"`
(earlier in the candidate order, stable sort) first, so the top element
is not the accepted candidate. -/
theorem c7_counterexample :
    initState [str "ab", str "Ab"] 6 = c7state
    ∧ c7state.filteredItems.getD c7state.selectedIndex [] = str "Ab"
    ∧ (tabStep c7state).inputText = str "Ab"
    ∧ (tabStep c7state).filteredItems.headD [] ≠ str "Ab" := by
  decide

/-- C7 witness: on the single candidate `"xy"` the accepted text re-filters
to itself as the top (only) result. -/
theorem c7_witness :
    (tabStep c7wstate).inputText
        = c7wstate.filteredItems.getD c7wstate.selectedIndex []
    ∧ (tabStep c7wstate).filteredItems ≠ []
    ∧ pyLower ((tabStep c7wstate).filteredItems.headD [])
        = pyLower (c7wstate.filteredItems.getD c7wstate.selectedIndex [])
    ∧ (tabStep c7wstate).filteredItems.headD []
        = c7wstate.filteredItems.getD c7wstate.selectedIndex [] :=
  have h := c7_accept_round_trip c7wstate (by decide) (by decide)
  have h2 := h.2 (by decide)
  ⟨h.1, h2.1, h2.2.1, h2.2.2 (by decide)⟩
